import Mathlib

/-
Shallow embedding of `clap_derive/src/item.rs` (semantic analysis of derive
attributes: role assignment, directive interpretation, casing translation and
default-strategy inference), together with theorems checking the
natural-language specification against it.
-/

set_option autoImplicit false

deriving instance DecidableEq for Except

namespace Clap

/-- `CasingStyle` from `item.rs` (lines 1292-1310). -/
inductive CasingStyle where
  | Camel
  | Kebab
  | Pascal
  | ScreamingSnake
  | Snake
  | Lower
  | Upper
  | Verbatim
deriving DecidableEq, Repr

/-- Modelled from the spec: the type-shape classification (`Ty` in `utils`,
which is not under `src/`): plain, optional, optional-of-optional, list,
optional-of-list, other. -/
inductive Ty where
  | Plain
  | Optional
  | OptionalOptional
  | List
  | OptionalList
  | Other
deriving DecidableEq, Repr

/-- A declared Rust type, as far as the shape classification looks at it:
a simple named type, `Option<_>`, `Vec<_>`, or anything else. -/
inductive RustTy where
  | simple (name : String)
  | option (t : RustTy)
  | vec (t : RustTy)
  | other
deriving DecidableEq, Repr

/-- Modelled from the spec: `Ty::from_syn_ty` (in `utils`, not under `src/`)
classifies a declared type into its coarse shape, unwrapping one level of
`Option`. -/
def Ty.fromSynTy : RustTy → Ty
  | .option (.option _) => .OptionalOptional
  | .option (.vec _) => .OptionalList
  | .option _ => .Optional
  | .vec _ => .List
  | .simple _ => .Plain
  | .other => .Other

/-- Modelled from the spec: `is_simple_ty` (in `utils`, not under `src/`)
recognizes a plain path type with the given name. -/
def isSimpleTy (t : RustTy) (name : String) : Bool :=
  match t with
  | .simple n => n == name
  | _ => false

/-- Attribute namespaces (`AttrKind` in `attr.rs`, not under `src/`); modelled
from the spec: declared namespace Arg | Command | Value plus the predecessor
library's legacy namespaces (`clap`, `structopt`). -/
inductive AttrKind where
  | Clap
  | StructOpt
  | Arg
  | Command
  | Value
deriving DecidableEq, Repr

def AttrKind.asStr : AttrKind → String
  | .Clap => "clap"
  | .StructOpt => "structopt"
  | .Arg => "arg"
  | .Command => "command"
  | .Value => "value"

/-- Attribute values (`AttrValue` in `attr.rs`, not under `src/`); modelled
from the spec: a directive's optional value is a literal, an expression, or a
raw-call-argument form. -/
inductive AttrValue where
  | lit (s : String)
  | expr (s : String)
  | call (args : List String)
deriving DecidableEq, Repr

/- ---------------------------------------------------------------- -/
/- Casing engine.                                                    -/
/- ---------------------------------------------------------------- -/

/-- Modelled from the spec: word splitting underlying the `heck` casing
transforms (the `heck` crate is an external collaborator). Word boundaries are
separators (`_`, `-`) and lower-to-upper transitions. -/
def splitWordsAux : List Char → List Char → List (List Char)
  | cur, [] => if cur.isEmpty then [] else [cur.reverse]
  | cur, c :: cs =>
    if c = '_' ∨ c = '-' then
      if cur.isEmpty then splitWordsAux [] cs else cur.reverse :: splitWordsAux [] cs
    else if c.isUpper && (match cur with | [] => false | d :: _ => d.isLower) then
      cur.reverse :: splitWordsAux [c] cs
    else
      splitWordsAux (c :: cur) cs

def splitWords (s : String) : List String :=
  (splitWordsAux [] s.data).map String.mk

/-- Lowercase every character of a word. -/
def lowerWord (w : String) : String :=
  String.mk (w.data.map Char.toLower)

/-- Uppercase every character of a word. -/
def upperWord (w : String) : String :=
  String.mk (w.data.map Char.toUpper)

/-- Capitalize one word: first character uppercased, the rest lowercased. -/
def capitalize (w : String) : String :=
  match w.data with
  | [] => ""
  | c :: cs => String.mk (c.toUpper :: cs.map Char.toLower)

def toSnakeCase (s : String) : String :=
  String.intercalate "_" ((splitWords s).map lowerWord)

def toShoutySnakeCase (s : String) : String :=
  String.intercalate "_" ((splitWords s).map upperWord)

def toKebabCase (s : String) : String :=
  String.intercalate "-" ((splitWords s).map lowerWord)

def toUpperCamelCase (s : String) : String :=
  String.join ((splitWords s).map capitalize)

def toLowerCamelCase (s : String) : String :=
  match splitWords s with
  | [] => ""
  | w :: ws => String.join (lowerWord w :: ws.map capitalize)

/-- The full-translation casing table of `Name::translate`
(`item.rs` lines 1350-1370), on the underlying derived identifier string. -/
def translateStr (style : CasingStyle) (s : String) : String :=
  match style with
  | .Pascal => toUpperCamelCase s
  | .Kebab => toKebabCase s
  | .Camel => toLowerCamelCase s
  | .ScreamingSnake => toShoutySnakeCase s
  | .Snake => toSnakeCase s
  | .Lower => String.mk ((toSnakeCase s).data.filter fun c => c ≠ '_')
  | .Upper => String.mk ((toShoutySnakeCase s).data.filter fun c => c ≠ '_')
  | .Verbatim => s

/-- The single-character casing table of `Name::translate_char`
(`item.rs` lines 1372-1394): like `translateStr` but `Lower`/`Upper` use the
snake / screaming-snake form without separator stripping. -/
def charCased (style : CasingStyle) (s : String) : String :=
  match style with
  | .Pascal => toUpperCamelCase s
  | .Kebab => toKebabCase s
  | .Camel => toLowerCamelCase s
  | .ScreamingSnake => toShoutySnakeCase s
  | .Snake => toSnakeCase s
  | .Lower => toSnakeCase s
  | .Upper => toShoutySnakeCase s
  | .Verbatim => s

/- ---------------------------------------------------------------- -/
/- Token streams, methods, names.                                    -/
/- ---------------------------------------------------------------- -/

/-- The repetition strategies emitted by default-action inference
(`clap::ArgAction` paths quoted by `default_action`). -/
inductive ArgAction where
  | Append
  | Set
  | SetTrue
deriving DecidableEq, Repr

/-- Shallow stand-in for the `proc_macro2::TokenStream` payloads that
`item.rs` builds: string/char literals, forwarded attribute values, raw call
arguments, the deferred first-character expression for assigned names, the
typed-default expressions, and `ArgAction` / `value_parser` defaults. -/
inductive Tok where
  | lit (s : String)
  | ch (c : Char)
  | value (v : AttrValue)
  | callArgs (args : List String)
  | firstCharOf (t : Tok)
  | defaultValueT (isValueEnum : Bool) (ty : RustTy) (val : Option AttrValue)
  | defaultValuesT (isValueEnum : Bool) (ty : RustTy) (val : AttrValue)
  | defaultValueOsT (isValueEnum : Bool) (ty : RustTy) (val : Option AttrValue)
  | defaultValuesOsT (isValueEnum : Bool) (ty : RustTy) (val : AttrValue)
  | argActionTok (a : ArgAction)
deriving DecidableEq, Repr

/-- `Method` from `item.rs` (lines 1167-1171): an opaque forwarded
configuration call. -/
structure Method where
  name : String
  args : Tok
deriving DecidableEq, Repr

/-- `Name` from `item.rs` (lines 1333-1337). -/
inductive Name where
  | derived (s : String)
  | assigned (t : Tok)
deriving DecidableEq, Repr

/-- `Name::translate` (`item.rs` lines 1350-1370). -/
def Name.translate : Name → CasingStyle → Tok
  | .assigned t, _ => t
  | .derived s, style => .lit (translateStr style s)

/-- `Name::translate_char` (`item.rs` lines 1372-1394). The `unwrap` on the
first character is modelled by `Option`: `none` is the panic branch. -/
def Name.translateChar : Name → CasingStyle → Option Tok
  | .assigned t, _ => some (.firstCharOf t)
  | .derived s, style => ((charCased style s).data.head?).map .ch

/- ---------------------------------------------------------------- -/
/- Author-string rewriting.                                          -/
/- ---------------------------------------------------------------- -/

/-- `process_author_str` (`item.rs` lines 1270-1289): replace `:` with
`, ` when not inside `<...>`, via a fold carrying the result string and the
angle-brace counter exactly as the source loop does. -/
def authorFoldStep (acc : String × Nat) (ch : Char) : String × Nat :=
  let res := acc.1
  let insideAngleBraces := acc.2
  if 0 < insideAngleBraces ∧ ch = '>' then (res.push ch, insideAngleBraces - 1)
  else if ch = '<' then (res.push ch, insideAngleBraces + 1)
  else if insideAngleBraces = 0 ∧ ch = ':' then (res ++ ", ", insideAngleBraces)
  else (res.push ch, insideAngleBraces)

def processAuthorStr (author : String) : String :=
  (author.data.foldl authorFoldStep ("", 0)).1

/-- Spec-side formulation of the author rewrite: the angle-bracket depth after
reading one character. -/
def authorDepthStep (d : Nat) (c : Char) : Nat :=
  if 0 < d ∧ c = '>' then d - 1
  else if c = '<' then d + 1
  else d

/-- Spec-side formulation of the author rewrite: every `:` at depth zero
becomes `, `, every other character is kept, in order. -/
def rewriteAuthorSeparators : Nat → List Char → String
  | _, [] => ""
  | d, c :: cs =>
    (if d = 0 ∧ c = ':' then ", " else String.singleton c) ++
      rewriteAuthorSeparators (authorDepthStep d c) cs

/- ---------------------------------------------------------------- -/
/- Attributes and their magic names.                                 -/
/- ---------------------------------------------------------------- -/

/-- `MagicAttrName` from `attr.rs` (not under `src/`); modelled from the spec:
the keywords with magic (bare-form) interpretations dispatched in §4.2. -/
inductive MagicAttrName where
  | Short
  | Long
  | ValueParser
  | Action
  | Env
  | Flatten
  | ValueEnum
  | FromGlobal
  | Subcommand
  | ExternalSubcommand
  | VerbatimDocComment
  | About
  | Author
  | Version
  | Skip
  | DefaultValueT
  | DefaultValuesT
  | DefaultValueOsT
  | DefaultValuesOsT
  | NextDisplayOrder
  | NextHelpHeading
  | RenameAll
  | RenameAllEnv
deriving DecidableEq, Repr

/-- Modelled from the spec: `ClapAttr::parse_all` (in `attr.rs`, not under
`src/`) marks an attribute as magic purely from its keyword. -/
def magicOf (name : String) : Option MagicAttrName :=
  if name = "short" then some .Short
  else if name = "long" then some .Long
  else if name = "value_parser" then some .ValueParser
  else if name = "action" then some .Action
  else if name = "env" then some .Env
  else if name = "flatten" then some .Flatten
  else if name = "value_enum" then some .ValueEnum
  else if name = "from_global" then some .FromGlobal
  else if name = "subcommand" then some .Subcommand
  else if name = "external_subcommand" then some .ExternalSubcommand
  else if name = "verbatim_doc_comment" then some .VerbatimDocComment
  else if name = "about" then some .About
  else if name = "author" then some .Author
  else if name = "version" then some .Version
  else if name = "skip" then some .Skip
  else if name = "default_value_t" then some .DefaultValueT
  else if name = "default_values_t" then some .DefaultValuesT
  else if name = "default_value_os_t" then some .DefaultValueOsT
  else if name = "default_values_os_t" then some .DefaultValuesOsT
  else if name = "next_display_order" then some .NextDisplayOrder
  else if name = "next_help_heading" then some .NextHelpHeading
  else if name = "rename_all" then some .RenameAll
  else if name = "rename_all_env" then some .RenameAllEnv
  else none

/-- One parsed directive (`ClapAttr`): keyword, declared namespace, optional
value. The magic classification is computed from the keyword by `magicOf`. -/
structure Attr where
  name : String
  kind : AttrKind
  value : Option AttrValue
deriving DecidableEq, Repr

def Attr.isCallValue (a : Attr) : Bool :=
  match a.value with
  | some (.call _) => true
  | _ => false

/- ---------------------------------------------------------------- -/
/- Errors and deprecations.                                          -/
/- ---------------------------------------------------------------- -/

/-- The fatal diagnostics `item.rs` raises via `abort!`, as structured
values. `kindConflict` carries the names of the new and the old role, as the
source message does. -/
inductive Error where
  | kindConflict (newName oldName : String)
  | noValue (attrName : String)
  | missingValue (attrName : String)
  | missingLitStr (attrName : String)
  | missingMetadata (attrName envVar : String)
  | namespaceMismatch (expected actual : AttrKind)
  | emptyNameChar (attrName : String)
  | flattenValueParser
  | flattenAction
  | flattenMethods
  | subcommandValueParser
  | subcommandAction
  | subcommandMethods
  | subcommandOptionOption
  | subcommandOptionVec
  | skipMethods
  | defaultValueNoType (attrName : String)
  | defaultValuesNotVec (attrName : String)
  | unsupportedCasing (s : String)
  | defaultValueForOption
  | optionOptionPositional
  | optionVecPositional
  | valueParserOnlyFields
  | actionOnlyFields
deriving DecidableEq, Repr

/-- The spec's ConflictError category: illegal role transition, or
duplicate/forbidden configuration on a restricted role. -/
def Error.isConflict : Error → Bool
  | .kindConflict _ _ => true
  | .flattenValueParser => true
  | .flattenAction => true
  | .flattenMethods => true
  | .subcommandValueParser => true
  | .subcommandAction => true
  | .subcommandMethods => true
  | .skipMethods => true
  | _ => false

/-- `Deprecation` from `item.rs` (lines 1218-1224), with the source span
dropped. -/
structure Deprecation where
  id : String
  version : String
  description : String
deriving DecidableEq, Repr

/-- `Deprecation::attribute` (`item.rs` lines 1227-1239). -/
def Deprecation.ofAttrKind (version : String) (old new : AttrKind) : Deprecation :=
  { id := "old_attribute"
    version := version
    description :=
      "Attribute #[" ++ old.asStr ++ "(...)] has been deprecated in favor of #["
        ++ new.asStr ++ "(...)]" }

/- ---------------------------------------------------------------- -/
/- Kinds, parsers, actions, the Item record.                         -/
/- ---------------------------------------------------------------- -/

/-- `Kind` from `item.rs` (lines 1128-1137). -/
inductive Kind where
  | arg (t : Ty)
  | command (t : Ty)
  | value (t : Ty)
  | fromGlobal (t : Ty)
  | subcommand (t : Ty)
  | flatten
  | skip (v : Option AttrValue) (k : AttrKind)
  | externalSubcommand
deriving DecidableEq, Repr

/-- `Kind::name` (`item.rs` lines 1140-1151). -/
def Kind.name : Kind → String
  | .arg _ => "arg"
  | .command _ => "command"
  | .value _ => "value"
  | .fromGlobal _ => "from_global"
  | .subcommand _ => "subcommand"
  | .flatten => "flatten"
  | .skip _ _ => "skip"
  | .externalSubcommand => "external_subcommand"

/-- `Kind::attr_kind` (`item.rs` lines 1153-1164). -/
def Kind.attrKind : Kind → AttrKind
  | .arg _ => .Arg
  | .command _ => .Command
  | .value _ => .Value
  | .fromGlobal _ => .Arg
  | .subcommand _ => .Command
  | .flatten => .Command
  | .skip _ k => k
  | .externalSubcommand => .Command

/-- `ValueParser` from `item.rs` (lines 1036-1041). -/
inductive ValueParser where
  | explicit (m : Method)
  | implicit (identName : String)
deriving DecidableEq, Repr

/-- `Action` from `item.rs` (lines 1071-1076). -/
inductive Action where
  | explicit (m : Method)
  | implicit (identName : String)
deriving DecidableEq, Repr

/-- `Item` from `item.rs` (lines 36-53). -/
structure Item where
  name : Name
  casing : CasingStyle
  envCasing : CasingStyle
  ty : Option RustTy
  docComment : List Method
  methods : List Method
  deprecations : List Deprecation
  valueParser : Option ValueParser
  action : Option Action
  verbatimDocComment : Bool
  nextDisplayOrder : Option Method
  nextHelpHeading : Option Method
  isEnum : Bool
  is_positional : Bool
  kind : Kind
deriving DecidableEq, Repr

/-- `Item::new` (`item.rs` lines 380-404). -/
def Item.new (name : Name) (ty : Option RustTy) (casing envCasing : CasingStyle)
    (kind : Kind) : Item :=
  { name := name
    casing := casing
    envCasing := envCasing
    ty := ty
    docComment := []
    methods := []
    deprecations := []
    valueParser := none
    action := none
    verbatimDocComment := false
    nextDisplayOrder := none
    nextHelpHeading := none
    isEnum := false
    is_positional := true
    kind := kind }

/-- `Item::push_method` (`item.rs` lines 406-419). -/
def Item.pushMethod (i : Item) (name : String) (arg : Tok) : Item :=
  if name = "name" ∨ name = "id" then
    { i with name := .assigned arg }
  else if name = "value_parser" then
    { i with valueParser := some (.explicit ⟨name, arg⟩) }
  else if name = "action" then
    { i with action := some (.explicit ⟨name, arg⟩) }
  else if name = "short" ∨ name = "long" then
    { i with is_positional := false, methods := i.methods ++ [⟨name, arg⟩] }
  else
    { i with methods := i.methods ++ [⟨name, arg⟩] }

/-- `Item::set_kind` (`item.rs` lines 881-901): the role-transition table. -/
def Item.setKind (i : Item) (kind : Kind) : Except Error Item :=
  match i.kind, kind with
  | .arg _, .fromGlobal _ => .ok { i with kind := kind }
  | .arg _, .subcommand _ => .ok { i with kind := kind }
  | .arg _, .flatten => .ok { i with kind := kind }
  | .arg _, .skip _ _ => .ok { i with kind := kind }
  | .command _, .subcommand _ => .ok { i with kind := kind }
  | .command _, .flatten => .ok { i with kind := kind }
  | .command _, .skip _ _ => .ok { i with kind := kind }
  | .command _, .externalSubcommand => .ok { i with kind := kind }
  | .value _, .skip _ _ => .ok { i with kind := kind }
  | _, _ => .error (.kindConflict kind.name i.kind.name)

/-- `Item::has_explicit_methods` (`item.rs` lines 1029-1033). -/
def Item.hasExplicitMethods (i : Item) : Bool :=
  i.methods.any fun m => m.name != "help" && m.name != "long_help"

/-- `Item::find_default_method` (`item.rs` lines 903-907). -/
def Item.findDefaultMethod (i : Item) : Option Method :=
  i.methods.find? fun m => m.name == "default_value" || m.name == "default_value_os"

/- ---------------------------------------------------------------- -/
/- Build metadata.                                                   -/
/- ---------------------------------------------------------------- -/

/-- The injected build-metadata environment (the source reads `env::var`; the
spec's design note models it as a read-only context). -/
def EnvCtx : Type := String → Option String

/-- `Method::from_env` (`item.rs` lines 1178-1201). `abort!` on a missing
variable becomes `Error.missingMetadata` (the message carries the remediation
note and help in the source); an empty value yields `none`. -/
def Method.fromEnv (env : EnvCtx) (ident : String) (envVar : String) :
    Except Error (Option Method) :=
  match env envVar with
  | some val =>
    if val = "" then .ok none
    else
      let litVal := if ident = "author" then processAuthorStr val else val
      .ok (some ⟨ident, .lit litVal⟩)
  | none => .error (.missingMetadata ident envVar)

/- ---------------------------------------------------------------- -/
/- Pass 1: role-establishing scan (`push_attrs`, first loop).        -/
/- ---------------------------------------------------------------- -/

/-- One step of the first `push_attrs` loop (`item.rs` lines 424-478):
raw-call values are skipped; bare role-establishing directives update the
kind through `set_kind`; `from_global` with a value is rejected. -/
def passOneStep (i : Item) (a : Attr) : Except Error Item :=
  if a.isCallValue then .ok i
  else
    match magicOf a.name with
    | some .FromGlobal =>
      match a.value with
      | some _ => .error (.noValue a.name)
      | none => i.setKind (.fromGlobal Ty.Other)
    | some .Subcommand =>
      if a.value = none then i.setKind (.subcommand Ty.Other) else .ok i
    | some .ExternalSubcommand =>
      if a.value = none then i.setKind .externalSubcommand else .ok i
    | some .Flatten =>
      if a.value = none then i.setKind .flatten else .ok i
    | some .Skip => i.setKind (.skip a.value i.kind.attrKind)
    | _ => .ok i

def passOne (i : Item) : List Attr → Except Error Item
  | [] => .ok i
  | a :: rest =>
    match passOneStep i a with
    | .error e => .error e
    | .ok i' => passOne i' rest

/- ---------------------------------------------------------------- -/
/- Pass 2: full validation walk (`push_attrs`, second loop).         -/
/- ---------------------------------------------------------------- -/

/-- The namespace check at the head of the second `push_attrs` loop
(`item.rs` lines 480-503): legacy namespaces deprecate, a mismatch from the
current namespace aborts. -/
def nsCheck (i : Item) (a : Attr) : Except Error Item :=
  match a.kind with
  | .Clap =>
    .ok { i with deprecations :=
      i.deprecations ++ [Deprecation.ofAttrKind "4.0.0" .Clap i.kind.attrKind] }
  | .StructOpt =>
    .ok { i with deprecations :=
      i.deprecations ++ [Deprecation.ofAttrKind "4.0.0" .StructOpt i.kind.attrKind] }
  | k =>
    if k = i.kind.attrKind then .ok i
    else .error (.namespaceMismatch i.kind.attrKind k)

/-- `CasingStyle::from_lit` (`item.rs` lines 1313-1330). -/
def CasingStyle.fromLit (name : String) : Except Error CasingStyle :=
  let normalized := lowerWord (toUpperCamelCase name)
  if normalized = "camel" ∨ normalized = "camelcase" then .ok .Camel
  else if normalized = "kebab" ∨ normalized = "kebabcase" then .ok .Kebab
  else if normalized = "pascal" ∨ normalized = "pascalcase" then .ok .Pascal
  else if normalized = "screamingsnake" ∨ normalized = "screamingsnakecase" then
    .ok .ScreamingSnake
  else if normalized = "snake" ∨ normalized = "snakecase" then .ok .Snake
  else if normalized = "lower" ∨ normalized = "lowercase" then .ok .Lower
  else if normalized = "upper" ∨ normalized = "uppercase" then .ok .Upper
  else if normalized = "verbatim" ∨ normalized = "verbatimcase" then .ok .Verbatim
  else .error (.unsupportedCasing normalized)

/-- The `about`/`author`/`version` bare branches (`item.rs` lines 560-578):
push the metadata method when `from_env` yields one. -/
def pushFromEnv (env : EnvCtx) (i : Item) (name envVar : String) : Except Error Item :=
  match Method.fromEnv env name envVar with
  | .error e => .error e
  | .ok none => .ok i
  | .ok (some m) => .ok { i with methods := i.methods ++ [m] }

/-- The keyword dispatch of the second `push_attrs` loop
(`item.rs` lines 511-856), after the raw-call check. -/
def passTwoDispatch (env : EnvCtx) (parsed : List Attr) (i : Item) (a : Attr) :
    Except Error Item :=
  match magicOf a.name, a.value with
  | some .Short, none =>
    match i.name.translateChar i.casing with
    | some t => .ok (i.pushMethod a.name t)
    | none => .error (.emptyNameChar a.name)
  | some .Long, none => .ok (i.pushMethod a.name (i.name.translate i.casing))
  | some .ValueParser, none =>
    .ok { i with
          deprecations := i.deprecations ++
            [⟨"bare_value_parser", "4.0.0",
              "`#[arg(value_parser)]` is now the default and is no longer needed`"⟩]
          valueParser := some (.implicit a.name) }
  | some .Action, none =>
    .ok { i with
          deprecations := i.deprecations ++
            [⟨"bare_action", "4.0.0",
              "`#[arg(action)]` is now the default and is no longer needed`"⟩]
          action := some (.implicit a.name) }
  | some .Env, none => .ok (i.pushMethod a.name (i.name.translate i.envCasing))
  | some .ValueEnum, none => .ok { i with isEnum := true }
  | some .VerbatimDocComment, none => .ok { i with verbatimDocComment := true }
  | some .About, none => pushFromEnv env i a.name "CARGO_PKG_DESCRIPTION"
  | some .Author, none => pushFromEnv env i a.name "CARGO_PKG_AUTHORS"
  | some .Version, none => pushFromEnv env i a.name "CARGO_PKG_VERSION"
  | some .DefaultValueT, v =>
    match i.ty with
    | none => .error (.defaultValueNoType a.name)
    | some ty =>
      let isVE := parsed.any fun p => magicOf p.name = some .ValueEnum
      .ok { i with methods := i.methods ++ [⟨"default_value", .defaultValueT isVE ty v⟩] }
  | some .DefaultValuesT, v =>
    match i.ty with
    | none => .error (.defaultValueNoType a.name)
    | some ty =>
      match v with
      | none => .error (.missingValue a.name)
      | some e =>
        if Ty.fromSynTy ty ≠ .List then .error (.defaultValuesNotVec a.name)
        else
          let isVE := parsed.any fun p => magicOf p.name = some .ValueEnum
          .ok { i with methods :=
            i.methods ++ [⟨"default_values", .defaultValuesT isVE ty e⟩] }
  | some .DefaultValueOsT, v =>
    match i.ty with
    | none => .error (.defaultValueNoType a.name)
    | some ty =>
      let isVE := parsed.any fun p => magicOf p.name = some .ValueEnum
      .ok { i with methods :=
        i.methods ++ [⟨"default_value", .defaultValueOsT isVE ty v⟩] }
  | some .DefaultValuesOsT, v =>
    match i.ty with
    | none => .error (.defaultValueNoType a.name)
    | some ty =>
      match v with
      | none => .error (.missingValue a.name)
      | some e =>
        if Ty.fromSynTy ty ≠ .List then .error (.defaultValuesNotVec a.name)
        else
          let isVE := parsed.any fun p => magicOf p.name = some .ValueEnum
          .ok { i with methods :=
            i.methods ++ [⟨"default_values", .defaultValuesOsT isVE ty e⟩] }
  | some .NextDisplayOrder, v =>
    match v with
    | none => .error (.missingValue a.name)
    | some e => .ok { i with nextDisplayOrder := some ⟨a.name, .value e⟩ }
  | some .NextHelpHeading, v =>
    match v with
    | none => .error (.missingValue a.name)
    | some e => .ok { i with nextHelpHeading := some ⟨a.name, .value e⟩ }
  | some .RenameAll, v =>
    match v with
    | some (.lit s) =>
      match CasingStyle.fromLit s with
      | .ok c => .ok { i with casing := c }
      | .error e => .error e
    | _ => .error (.missingLitStr a.name)
  | some .RenameAllEnv, v =>
    match v with
    | some (.lit s) =>
      match CasingStyle.fromLit s with
      | .ok c => .ok { i with envCasing := c }
      | .error e => .error e
    | _ => .error (.missingLitStr a.name)
  | some .ValueEnum, some _ => .error (.noValue a.name)
  | some .VerbatimDocComment, some _ => .error (.noValue a.name)
  | some .FromGlobal, _ => .ok i
  | some .Subcommand, _ => .ok i
  | some .ExternalSubcommand, _ => .ok i
  | some .Flatten, _ => .ok i
  | some .Skip, _ => .ok i
  | none, v | some .Short, v | some .Long, v | some .Env, v
  | some .About, v | some .Author, v | some .Version, v
  | some .ValueParser, v | some .Action, v =>
    match v with
    | none => .error (.missingValue a.name)
    | some e => .ok (i.pushMethod a.name (.value e))

/-- One step of the second `push_attrs` loop: namespace check, then raw-call
forwarding, then keyword dispatch. -/
def passTwoStep (env : EnvCtx) (parsed : List Attr) (i : Item) (a : Attr) :
    Except Error Item :=
  match nsCheck i a with
  | .error e => .error e
  | .ok i' =>
    match a.value with
    | some (.call args) => .ok (i'.pushMethod a.name (.callArgs args))
    | _ => passTwoDispatch env parsed i' a

def passTwo (env : EnvCtx) (parsed : List Attr) (i : Item) : List Attr → Except Error Item
  | [] => .ok i
  | a :: rest =>
    match passTwoStep env parsed i a with
    | .error e => .error e
    | .ok i' => passTwo env parsed i' rest

/-- `Item::push_attrs` (`item.rs` lines 421-858): the role-establishing pass
followed by the full validation pass over the same directive list. -/
def Item.pushAttrs (env : EnvCtx) (i : Item) (attrs : List Attr) : Except Error Item :=
  match passOne i attrs with
  | .error e => .error e
  | .ok i' => passTwo env attrs i' attrs

/- ---------------------------------------------------------------- -/
/- Default inference.                                                -/
/- ---------------------------------------------------------------- -/

/-- `default_action` (`item.rs` lines 1096-1124): the inferred repetition
strategy from the declared field type. -/
def defaultAction (fieldType : RustTy) : Method :=
  let act : ArgAction :=
    match Ty.fromSynTy fieldType with
    | .List => .Append
    | .OptionalList => .Append
    | .Optional => .Set
    | .OptionalOptional => .Set
    | _ => if isSimpleTy fieldType "bool" then .SetTrue else .Set
  ⟨"action", .argActionTok act⟩

/-- `Action::resolve` (`item.rs` lines 1079-1085). -/
def Action.resolve : Action → RustTy → Method
  | .explicit m, _ => m
  | .implicit _, t => defaultAction t

/-- `Item::action` (`item.rs` lines 994-1011): the explicit override when one
was registered, the inferred default otherwise. -/
def Item.actionMethod (i : Item) (fieldType : RustTy) : Method :=
  match i.action with
  | some a => a.resolve fieldType
  | none => defaultAction fieldType

/- ---------------------------------------------------------------- -/
/- Doc comments and field construction.                              -/
/- ---------------------------------------------------------------- -/

/-- Modelled from the spec: `process_doc_comment` (the DocCommentExtractor,
in `utils`, not under `src/`) turns raw comment lines into short/long
help-text methods named `name` and `long_name`, honoring the verbatim flag
(reflow joins lines with spaces, verbatim keeps line breaks). -/
def processDocComment (lines : List String) (name : String) (preprocess : Bool) :
    List Method :=
  match lines with
  | [] => []
  | first :: rest =>
    if rest.isEmpty then [⟨name, .lit first⟩]
    else
      let long := if preprocess then String.intercalate " " lines
                  else String.intercalate "\n" lines
      [⟨name, .lit first⟩, ⟨"long_" ++ name, .lit long⟩]

/-- `Item::push_doc_comment` (`item.rs` lines 860-879). -/
def Item.pushDocComment (i : Item) (lines : List String) (name : String) : Item :=
  { i with docComment := processDocComment lines name (!i.verbatimDocComment) }

/-- One struct member as seen by `Item::from_args_field`: raw identifier,
declared type, directive list, doc-comment lines. -/
structure FieldInput where
  ident : String
  fieldTy : RustTy
  attrs : List Attr
  docLines : List String
deriving Repr

/-- The kind-directed finalization at the tail of `Item::from_args_field`
(`item.rs` lines 260-377): flatten/subcommand/skip restrictions, shape
refinement for `from_global` and plain arguments. -/
def finalizeArgsField (field : FieldInput) (i : Item) : Except Error Item :=
  match i.kind with
  | .flatten =>
    if i.valueParser.isSome then .error .flattenValueParser
    else if i.action.isSome then .error .flattenAction
    else if i.hasExplicitMethods then .error .flattenMethods
    else .ok { i with docComment := [] }
  | .subcommand _ =>
    if i.valueParser.isSome then .error .subcommandValueParser
    else if i.action.isSome then .error .subcommandAction
    else if i.hasExplicitMethods then .error .subcommandMethods
    else
      match Ty.fromSynTy field.fieldTy with
      | .OptionalOptional => .error .subcommandOptionOption
      | .OptionalList => .error .subcommandOptionVec
      | ty => .ok { i with kind := .subcommand ty }
  | .skip _ _ =>
    if i.hasExplicitMethods then .error .skipMethods else .ok i
  | .fromGlobal _ => .ok { i with kind := .fromGlobal (Ty.fromSynTy field.fieldTy) }
  | .arg _ =>
    match Ty.fromSynTy field.fieldTy with
    | .Optional =>
      if i.findDefaultMethod.isSome then .error .defaultValueForOption
      else .ok { i with kind := .arg .Optional }
    | .OptionalOptional =>
      if i.is_positional then .error .optionOptionPositional
      else .ok { i with kind := .arg .OptionalOptional }
    | .OptionalList =>
      if i.is_positional then .error .optionVecPositional
      else .ok { i with kind := .arg .OptionalList }
    | ty => .ok { i with kind := .arg ty }
  | _ => .ok i

/-- `Item::from_args_field` (`item.rs` lines 242-378). -/
def Item.fromArgsField (env : EnvCtx) (field : FieldInput)
    (structCasing envCasing : CasingStyle) : Except Error Item :=
  match (Item.new (.derived field.ident) (some field.fieldTy) structCasing envCasing
      (.arg Ty.Other)).pushAttrs env field.attrs with
  | .error e => .error e
  | .ok i' => finalizeArgsField field (i'.pushDocComment field.docLines "help")

/- ---------------------------------------------------------------- -/
/- Spec-side tables.                                                 -/
/- ---------------------------------------------------------------- -/

/-- The spec's Role classification (§3), one constructor per role. -/
inductive Role where
  | Argument
  | Command
  | Value
  | FromGlobal
  | Subcommand
  | Flatten
  | Skip
  | ExternalSubcommand
deriving DecidableEq, Repr

/-- The role a `Kind` carries, forgetting payloads. -/
def Kind.role : Kind → Role
  | .arg _ => .Argument
  | .command _ => .Command
  | .value _ => .Value
  | .fromGlobal _ => .FromGlobal
  | .subcommand _ => .Subcommand
  | .flatten => .Flatten
  | .skip _ _ => .Skip
  | .externalSubcommand => .ExternalSubcommand

/-- The allowed-transition table of §4.1, expressed as data: old role paired
with each allowed new role. -/
def allowedTransitions : List (Role × Role) :=
  [(.Argument, .FromGlobal), (.Argument, .Subcommand), (.Argument, .Flatten),
   (.Argument, .Skip),
   (.Command, .Subcommand), (.Command, .Flatten), (.Command, .Skip),
   (.Command, .ExternalSubcommand),
   (.Value, .Skip)]

/-- The full-word-case style table from the spec (§4.3): for `Lower` and
`Upper` the full-word-case form is the `Snake` / `ScreamingSnake` form; every
other style is its own full-word-case form. -/
def fullWordStyle : CasingStyle → CasingStyle
  | .Lower => .Snake
  | .Upper => .ScreamingSnake
  | st => st

/- ---------------------------------------------------------------- -/
/- Helper lemmas.                                                    -/
/- ---------------------------------------------------------------- -/

theorem pushEq (s : String) (c : Char) : s.push c = s ++ String.singleton c := rfl

theorem authorFoldStep_eq (res : String) (d : Nat) (c : Char) :
    authorFoldStep (res, d) c =
      (res ++ (if d = 0 ∧ c = ':' then ", " else String.singleton c),
        authorDepthStep d c) := by
  unfold authorFoldStep authorDepthStep
  rcases Nat.eq_zero_or_pos d with hd | hd
  · subst hd
    split_ifs <;> simp_all [pushEq]
  · have hd0 : ¬ d = 0 := Nat.pos_iff_ne_zero.mp hd
    split_ifs <;> simp_all [pushEq]

theorem processAuthor_go (cs : List Char) : ∀ (res : String) (d : Nat),
    (cs.foldl authorFoldStep (res, d)).1 = res ++ rewriteAuthorSeparators d cs := by
  induction cs with
  | nil => intro res d; simp [rewriteAuthorSeparators]
  | cons c cs ih =>
    intro res d
    rw [List.foldl_cons, authorFoldStep_eq, ih]
    show _ = res ++ rewriteAuthorSeparators d (c :: cs)
    rw [rewriteAuthorSeparators, String.append_assoc]

/- ---------------------------------------------------------------- -/
/- C5: author-separator rewriting.                                   -/
/- ---------------------------------------------------------------- -/

/-- C5: `process_author_str` replaces each `:` at angle-bracket depth zero
with `", "` and keeps every other character (including `:` inside `<...>`)
unchanged, in order; in particular it maps `"a<x:y>:b"` to `"a<x:y>, b"`. -/
theorem processAuthorStr_spec :
    (∀ s : String, processAuthorStr s = rewriteAuthorSeparators 0 s.data) ∧
    processAuthorStr "a<x:y>:b" = "a<x:y>, b" := by
  constructor
  · intro s
    unfold processAuthorStr
    rw [processAuthor_go]
    exact String.empty_append _
  · rfl

/- ---------------------------------------------------------------- -/
/- C6 and C10: single-character translation.                         -/
/- ---------------------------------------------------------------- -/

theorem charCased_eq_fullWord (style : CasingStyle) (s : String) :
    charCased style s = translateStr (fullWordStyle style) s := by
  cases style <;> rfl

/-- C6: for a derived identifier, the single-character translation under any
style equals the first character of the full translation under that style's
full-word-case form (`Snake` for `Lower`, `ScreamingSnake` for `Upper`). -/
theorem translateChar_head_of_fullWord (style : CasingStyle) (s : String)
    (w : String) (c : Char)
    (h1 : Name.translate (.derived s) (fullWordStyle style) = .lit w)
    (h2 : w.data.head? = some c) :
    Name.translateChar (.derived s) style = some (.ch c) := by
  simp only [Name.translate] at h1
  have hw : translateStr (fullWordStyle style) s = w := by
    cases h1; rfl
  simp [Name.translateChar, charCased_eq_fullWord, hw, h2]

theorem translateChar_head_of_fullWord_witness :
    Name.translateChar (.derived "RunFast") .Lower = some (.ch 'r') :=
  translateChar_head_of_fullWord .Lower "RunFast" "run_fast" 'r' (by rfl) (by rfl)

/-- C10: the single-character translation of a derived identifier is exactly
as partial as the emptiness of the full-word-case form: a non-empty form
yields its first character (the failure branch is unreachable), an empty form
yields no result. -/
theorem translateChar_totality (style : CasingStyle) (s : String) :
    (translateStr (fullWordStyle style) s ≠ "" →
      ∃ c, (translateStr (fullWordStyle style) s).data.head? = some c ∧
        Name.translateChar (.derived s) style = some (.ch c)) ∧
    (translateStr (fullWordStyle style) s = "" →
      Name.translateChar (.derived s) style = none) := by
  constructor
  · intro h
    have hne : (translateStr (fullWordStyle style) s).data ≠ [] := by
      intro hd
      exact h (String.ext hd)
    cases hh : (translateStr (fullWordStyle style) s).data with
    | nil => exact absurd hh hne
    | cons c cs =>
      refine ⟨c, by simp [hh], ?_⟩
      simp [Name.translateChar, charCased_eq_fullWord, hh]
  · intro h
    simp [Name.translateChar, charCased_eq_fullWord, h]

theorem translateChar_totality_witness :
    ∃ c, (translateStr (fullWordStyle .Lower) "RunFast").data.head? = some c ∧
      Name.translateChar (.derived "RunFast") .Lower = some (.ch c) :=
  (translateChar_totality .Lower "RunFast").1 (by decide)

/- ---------------------------------------------------------------- -/
/- C2: default repetition-strategy inference.                        -/
/- ---------------------------------------------------------------- -/

/-- C2: with no explicit action registered, the inferred default action is
`Append` for `List`/`OptionalList` shapes, `Set` for
`Optional`/`OptionalOptional`, `SetTrue` for a plain `bool`, and `Set` for
every other shape. -/
theorem actionMethod_default_inference (i : Item) (t : RustTy)
    (h : i.action = none) :
    (Ty.fromSynTy t = .List →
      i.actionMethod t = ⟨"action", .argActionTok .Append⟩) ∧
    (Ty.fromSynTy t = .OptionalList →
      i.actionMethod t = ⟨"action", .argActionTok .Append⟩) ∧
    (Ty.fromSynTy t = .Optional →
      i.actionMethod t = ⟨"action", .argActionTok .Set⟩) ∧
    (Ty.fromSynTy t = .OptionalOptional →
      i.actionMethod t = ⟨"action", .argActionTok .Set⟩) ∧
    (isSimpleTy t "bool" = true →
      i.actionMethod t = ⟨"action", .argActionTok .SetTrue⟩) ∧
    ((Ty.fromSynTy t = .Plain ∨ Ty.fromSynTy t = .Other) →
      isSimpleTy t "bool" = false →
      i.actionMethod t = ⟨"action", .argActionTok .Set⟩) := by
  simp only [Item.actionMethod, h]
  rcases t with n | t' | t' | _
  · by_cases hb : n == "bool" <;> simp_all [defaultAction, Ty.fromSynTy, isSimpleTy]
  · rcases t' with n | t'' | t'' | _ <;> simp [defaultAction, Ty.fromSynTy, isSimpleTy]
  · simp [defaultAction, Ty.fromSynTy, isSimpleTy]
  · simp [defaultAction, Ty.fromSynTy, isSimpleTy]

theorem actionMethod_default_inference_witness :
    (Item.new (.derived "x") none .Kebab .ScreamingSnake (.arg .Other)).actionMethod
        (.vec (.simple "String")) = ⟨"action", .argActionTok .Append⟩ :=
  (actionMethod_default_inference _ _ rfl).1 rfl

/- ---------------------------------------------------------------- -/
/- C1: the role-transition table.                                    -/
/- ---------------------------------------------------------------- -/

/-- C1: `set_kind` succeeds exactly on the role pairs of §4.1's
transition table, in which case the item's kind becomes the new kind; every
other pair yields a conflict error naming both roles. -/
theorem setKind_transition_table (i : Item) (k : Kind) :
    ((i.kind.role, k.role) ∈ allowedTransitions →
      i.setKind k = .ok { i with kind := k }) ∧
    ((i.kind.role, k.role) ∉ allowedTransitions →
      i.setKind k = .error (.kindConflict k.name i.kind.name)) := by
  obtain ⟨nm, ca, ec, ty, dc, ms, dp, vp, ac, vb, ndo, nhh, ie, ip, ki⟩ := i
  cases ki <;> cases k <;>
    simp [Item.setKind, Kind.role, allowedTransitions, Kind.name]

theorem setKind_transition_table_witness :
    (Item.new (.derived "x") none .Kebab .ScreamingSnake (.arg .Other)).setKind .flatten =
      .ok { Item.new (.derived "x") none .Kebab .ScreamingSnake (.arg .Other) with
              kind := .flatten } ∧
    (Item.new (.derived "x") none .Kebab .ScreamingSnake (.arg .Other)).setKind
        .externalSubcommand =
      .error (.kindConflict "external_subcommand" "arg") :=
  ⟨(setKind_transition_table _ _).1 (by decide),
   (setKind_transition_table _ _).2 (by decide)⟩

/- ---------------------------------------------------------------- -/
/- Namespace-check lemmas.                                           -/
/- ---------------------------------------------------------------- -/

theorem nsCheck_matching (i : Item) (a : Attr) (h1 : a.kind = i.kind.attrKind)
    (h2 : a.kind ≠ .Clap) (h3 : a.kind ≠ .StructOpt) : nsCheck i a = .ok i := by
  rcases a with ⟨an, ak, av⟩
  cases ak <;> simp_all [nsCheck]

theorem nsCheck_legacy (i : Item) (a : Attr)
    (h : a.kind = .Clap ∨ a.kind = .StructOpt) :
    nsCheck i a = .ok { i with deprecations :=
      i.deprecations ++ [Deprecation.ofAttrKind "4.0.0" a.kind i.kind.attrKind] } := by
  rcases a with ⟨an, ak, av⟩
  rcases h with h | h <;> subst h <;> rfl

/- ---------------------------------------------------------------- -/
/- C8: duplicate explicit decoding-strategy registrations.           -/
/- ---------------------------------------------------------------- -/

/-- A fresh argument item used by concrete counterexamples/witnesses. -/
def cexItem : Item := Item.new (.derived "x") none .Kebab .ScreamingSnake (.arg .Other)

/-- C8 counterexample: registering two explicit `value_parser` directives on
the same item retains the second, not the first, so the first explicit
registration does not win. -/
theorem valueParser_first_wins_counterexample :
    ((cexItem.pushMethod "value_parser" (.value (.expr "p1"))).pushMethod
        "value_parser" (.value (.expr "p2"))).valueParser ≠
      some (.explicit ⟨"value_parser", .value (.expr "p1")⟩) := by
  decide

/-- C8 (amended): at most one decoding-strategy override is retained, and
when several explicit `value_parser` directives target the same item the
last explicit registration wins silently: each registration overwrites the
retained override and no error is raised. -/
theorem pushMethod_valueParser_last_wins :
    (∀ (i : Item) (t : Tok),
      (i.pushMethod "value_parser" t).valueParser =
        some (.explicit ⟨"value_parser", t⟩)) ∧
    (∀ (i : Item) (t1 t2 : Tok),
      ((i.pushMethod "value_parser" t1).pushMethod "value_parser" t2).valueParser =
        some (.explicit ⟨"value_parser", t2⟩)) := by
  constructor
  · intro i t
    simp [Item.pushMethod]
  · intro i t1 t2
    simp [Item.pushMethod]

/- ---------------------------------------------------------------- -/
/- C7 and C9: bare about/author/version and build metadata.          -/
/- ---------------------------------------------------------------- -/

/-- A metadata environment whose package description is set but empty. -/
def envEmptyDesc : EnvCtx := fun v =>
  if v = "CARGO_PKG_DESCRIPTION" then some "" else none

/-- A fully populated metadata environment. -/
def envFull : EnvCtx := fun v =>
  if v = "CARGO_PKG_DESCRIPTION" then some "desc"
  else if v = "CARGO_PKG_AUTHORS" then some "a:b"
  else if v = "CARGO_PKG_VERSION" then some "1.0"
  else none

/-- C7 counterexample: the description metadata is present (set to the empty
string), yet the bare `about` directive produces no method at all, so a
present metadata value is not always appended. -/
theorem fromEnv_present_empty_counterexample :
    (envEmptyDesc "CARGO_PKG_DESCRIPTION").isSome = true ∧
    Method.fromEnv envEmptyDesc "about" "CARGO_PKG_DESCRIPTION" = .ok none := by
  constructor <;> rfl

/-- C7 (amended): a bare `about`/`author`/`version` directive aborts with the
missing-metadata error when the metadata variable is absent; when it is
present and non-empty, a method with that literal value (author text
rewritten) is produced and appended to the item's method list; when present
but empty, nothing is appended. -/
theorem fromEnv_metadata_behavior (env : EnvCtx) :
    (∀ ident envVar, env envVar = none →
      Method.fromEnv env ident envVar = .error (.missingMetadata ident envVar)) ∧
    (∀ ident envVar v, env envVar = some v → v ≠ "" →
      Method.fromEnv env ident envVar =
        .ok (some ⟨ident, .lit (if ident = "author" then processAuthorStr v else v)⟩)) ∧
    (∀ ident envVar, env envVar = some "" →
      Method.fromEnv env ident envVar = .ok none) ∧
    (∀ (parsed : List Attr) (i : Item) (nm evar v : String),
      ((nm = "about" ∧ evar = "CARGO_PKG_DESCRIPTION") ∨
        (nm = "author" ∧ evar = "CARGO_PKG_AUTHORS") ∨
        (nm = "version" ∧ evar = "CARGO_PKG_VERSION")) →
      env evar = some v → v ≠ "" →
      i.kind.attrKind ≠ .Clap → i.kind.attrKind ≠ .StructOpt →
      passTwoStep env parsed i ⟨nm, i.kind.attrKind, none⟩ =
        .ok { i with methods := i.methods ++
          [⟨nm, .lit (if nm = "author" then processAuthorStr v else v)⟩] }) := by
  refine ⟨?_, ?_, ?_, ?_⟩
  · intro ident envVar h
    simp [Method.fromEnv, h]
  · intro ident envVar v h hv
    simp [Method.fromEnv, h, hv]
  · intro ident envVar h
    simp [Method.fromEnv, h]
  · intro parsed i nm evar v hmem henv hv hc hs
    have hns : nsCheck i ⟨nm, i.kind.attrKind, none⟩ = .ok i :=
      nsCheck_matching i ⟨nm, i.kind.attrKind, none⟩ rfl hc hs
    rcases hmem with ⟨rfl, rfl⟩ | ⟨rfl, rfl⟩ | ⟨rfl, rfl⟩ <;>
      simp [passTwoStep, hns, passTwoDispatch,
        show magicOf "about" = some MagicAttrName.About from by decide,
        show magicOf "author" = some MagicAttrName.Author from by decide,
        show magicOf "version" = some MagicAttrName.Version from by decide,
        pushFromEnv, Method.fromEnv, henv, hv]

theorem fromEnv_metadata_behavior_witness :
    Method.fromEnv envFull "author" "CARGO_PKG_AUTHORS" =
      .ok (some ⟨"author", .lit "a, b"⟩) := by
  have h := (fromEnv_metadata_behavior envFull).2.1 "author" "CARGO_PKG_AUTHORS" "a:b"
    (by rfl) (by decide)
  rw [h]
  decide

/-- C9 counterexample: a bare `about` directive in the legacy `structopt`
namespace, with the description metadata present but empty, yields an item
that differs from the one produced with the directive absent (a deprecation
warning is recorded), so the item is not exactly as if the directive had been
absent. -/
theorem about_empty_asif_absent_counterexample :
    Item.pushAttrs envEmptyDesc cexItem [⟨"about", .StructOpt, none⟩] =
      .ok { cexItem with deprecations :=
        [Deprecation.ofAttrKind "4.0.0" .StructOpt .Arg] } ∧
    Item.pushAttrs envEmptyDesc cexItem [] = .ok cexItem ∧
    { cexItem with deprecations :=
        [Deprecation.ofAttrKind "4.0.0" .StructOpt .Arg] } ≠ cexItem := by
  refine ⟨by decide, by decide, by decide⟩

/-- C9 (amended): a bare `about`/`author`/`version` directive whose metadata
value is present but empty registers no method and raises no error; with a
matching namespace the processing step leaves the item exactly as if the
directive were absent, while a legacy-namespace directive additionally
records its usual deprecation warning. -/
theorem about_empty_metadata_step (env : EnvCtx) (parsed : List Attr) (i : Item)
    (nm evar : String)
    (hmem : (nm = "about" ∧ evar = "CARGO_PKG_DESCRIPTION") ∨
      (nm = "author" ∧ evar = "CARGO_PKG_AUTHORS") ∨
      (nm = "version" ∧ evar = "CARGO_PKG_VERSION"))
    (henv : env evar = some "") :
    (i.kind.attrKind ≠ .Clap → i.kind.attrKind ≠ .StructOpt →
      passTwoStep env parsed i ⟨nm, i.kind.attrKind, none⟩ = .ok i) ∧
    (∀ legacy, legacy = AttrKind.Clap ∨ legacy = AttrKind.StructOpt →
      passTwoStep env parsed i ⟨nm, legacy, none⟩ =
        .ok { i with deprecations :=
          i.deprecations ++ [Deprecation.ofAttrKind "4.0.0" legacy i.kind.attrKind] }) := by
  constructor
  · intro hc hs
    have hns : nsCheck i ⟨nm, i.kind.attrKind, none⟩ = .ok i :=
      nsCheck_matching i ⟨nm, i.kind.attrKind, none⟩ rfl hc hs
    rcases hmem with ⟨rfl, rfl⟩ | ⟨rfl, rfl⟩ | ⟨rfl, rfl⟩ <;>
      simp [passTwoStep, hns, passTwoDispatch,
        show magicOf "about" = some MagicAttrName.About from by decide,
        show magicOf "author" = some MagicAttrName.Author from by decide,
        show magicOf "version" = some MagicAttrName.Version from by decide,
        pushFromEnv, Method.fromEnv, henv]
  · intro legacy hleg
    have hns := nsCheck_legacy i ⟨nm, legacy, none⟩ hleg
    rcases hmem with ⟨rfl, rfl⟩ | ⟨rfl, rfl⟩ | ⟨rfl, rfl⟩ <;>
      simp [passTwoStep, hns, passTwoDispatch,
        show magicOf "about" = some MagicAttrName.About from by decide,
        show magicOf "author" = some MagicAttrName.Author from by decide,
        show magicOf "version" = some MagicAttrName.Version from by decide,
        pushFromEnv, Method.fromEnv, henv]

theorem about_empty_metadata_step_witness :
    passTwoStep envEmptyDesc [] cexItem ⟨"about", .Arg, none⟩ = .ok cexItem := by
  have h := (about_empty_metadata_step envEmptyDesc [] cexItem "about"
    "CARGO_PKG_DESCRIPTION" (Or.inl ⟨rfl, rfl⟩) (by rfl)).1 (by decide) (by decide)
  exact h

/- ---------------------------------------------------------------- -/
/- C3: the is_positional invariant.                                  -/
/- ---------------------------------------------------------------- -/

theorem pushMethod_is_positional (i : Item) (n : String) (t : Tok) :
    (i.pushMethod n t).is_positional =
      if n = "short" ∨ n = "long" then false else i.is_positional := by
  by_cases hsl : n = "short" ∨ n = "long"
  · rcases hsl with rfl | rfl <;> simp [Item.pushMethod]
  · rw [if_neg hsl]
    unfold Item.pushMethod
    split_ifs with h1 h2 h3 <;> rfl

theorem setKind_ok (i : Item) (k : Kind) (j : Item) (h : i.setKind k = .ok j) :
    j = { i with kind := k } := by
  unfold Item.setKind at h
  split at h <;> simp_all

theorem passOneStep_is_positional (i : Item) (a : Attr) (j : Item)
    (h : passOneStep i a = .ok j) : j.is_positional = i.is_positional := by
  unfold passOneStep at h
  repeat' split at h
  all_goals first
    | (simp only [Except.ok.injEq] at h; subst h; rfl)
    | (rw [setKind_ok _ _ _ h])
    | simp at h

theorem passOne_is_positional (attrs : List Attr) : ∀ (i j : Item),
    passOne i attrs = .ok j → j.is_positional = i.is_positional := by
  induction attrs with
  | nil =>
    intro i j h
    simp only [passOne, Except.ok.injEq] at h
    subst h; rfl
  | cons a rest ih =>
    intro i j h
    simp only [passOne] at h
    cases hs : passOneStep i a with
    | error e => rw [hs] at h; simp at h
    | ok i' =>
      rw [hs] at h
      rw [ih i' j h, passOneStep_is_positional i a i' hs]

theorem nsCheck_is_positional (i : Item) (a : Attr) (i' : Item)
    (h : nsCheck i a = .ok i') : i'.is_positional = i.is_positional := by
  unfold nsCheck at h
  repeat' split at h
  all_goals first
    | (simp only [Except.ok.injEq] at h; subst h; rfl)
    | simp at h

theorem pushFromEnv_is_positional (env : EnvCtx) (i : Item) (nm ev : String)
    (j : Item) (h : pushFromEnv env i nm ev = .ok j) :
    j.is_positional = i.is_positional := by
  unfold pushFromEnv at h
  repeat' split at h
  all_goals first
    | (simp only [Except.ok.injEq] at h; subst h; rfl)
    | simp at h

theorem magicOf_ne_short_long {n : String} {m : MagicAttrName}
    (h : magicOf n = some m) (hs : m ≠ .Short) (hl : m ≠ .Long) :
    ¬(n = "short" ∨ n = "long") := by
  rintro (rfl | rfl)
  · rw [show magicOf "short" = some MagicAttrName.Short from by decide] at h
    injection h with h2
    exact hs h2.symm
  · rw [show magicOf "long" = some MagicAttrName.Long from by decide] at h
    injection h with h2
    exact hl h2.symm

theorem passTwoDispatch_is_positional (env : EnvCtx) (parsed : List Attr)
    (i : Item) (a : Attr) (j : Item) (h : passTwoDispatch env parsed i a = .ok j) :
    j.is_positional =
      if a.name = "short" ∨ a.name = "long" then false else i.is_positional := by
  unfold passTwoDispatch at h
  rcases hm : magicOf a.name with _ | m <;> rw [hm] at h
  · repeat' split at h
    all_goals first
      | contradiction
      | (simp only [Except.ok.injEq] at h; subst h; rw [pushMethod_is_positional])
  · cases m
    case Short =>
      repeat' split at h
      all_goals first
        | contradiction
        | (simp only [Except.ok.injEq] at h; subst h; rw [pushMethod_is_positional])
    case Long =>
      repeat' split at h
      all_goals first
        | contradiction
        | (simp only [Except.ok.injEq] at h; subst h; rw [pushMethod_is_positional])
    all_goals
      have hn := magicOf_ne_short_long hm (by decide) (by decide)
    all_goals
      rw [if_neg hn]
    all_goals
      repeat' split at h
    all_goals first
      | contradiction
      | exact pushFromEnv_is_positional _ _ _ _ _ h
      | (simp only [Except.ok.injEq] at h; subst h;
          first
            | rfl
            | rw [pushMethod_is_positional, if_neg hn])

theorem passTwoStep_is_positional (env : EnvCtx) (parsed : List Attr) (i : Item)
    (a : Attr) (j : Item) (h : passTwoStep env parsed i a = .ok j) :
    j.is_positional =
      if a.name = "short" ∨ a.name = "long" then false else i.is_positional := by
  unfold passTwoStep at h
  cases hns : nsCheck i a with
  | error e => rw [hns] at h; simp at h
  | ok i' =>
    rw [hns] at h
    have hpos := nsCheck_is_positional i a i' hns
    cases hv : a.value with
    | none =>
      rw [hv] at h
      rw [passTwoDispatch_is_positional env parsed i' a j h, hpos]
    | some v =>
      cases v with
      | call args =>
        rw [hv] at h
        simp only [Except.ok.injEq] at h; subst h
        rw [pushMethod_is_positional, hpos]
      | lit s =>
        rw [hv] at h
        rw [passTwoDispatch_is_positional env parsed i' a j h, hpos]
      | expr s =>
        rw [hv] at h
        rw [passTwoDispatch_is_positional env parsed i' a j h, hpos]

theorem passTwo_is_positional (env : EnvCtx) (parsed : List Attr)
    (attrs : List Attr) : ∀ (i j : Item),
    passTwo env parsed i attrs = .ok j →
    j.is_positional = (i.is_positional &&
      !(attrs.any fun a => a.name == "short" || a.name == "long")) := by
  induction attrs with
  | nil =>
    intro i j h
    simp only [passTwo, Except.ok.injEq] at h
    subst h; simp
  | cons a rest ih =>
    intro i j h
    simp only [passTwo] at h
    cases hs : passTwoStep env parsed i a with
    | error e => rw [hs] at h; simp at h
    | ok i' =>
      rw [hs] at h
      rw [ih i' j h, passTwoStep_is_positional env parsed i a i' hs]
      by_cases hn : a.name = "short" ∨ a.name = "long"
      · rcases hn with hn | hn <;> simp [hn]
      · push_neg at hn
        have h1 : (a.name == "short") = false := by
          simp only [beq_eq_false_iff_ne, ne_eq]; exact hn.1
        have h2 : (a.name == "long") = false := by
          simp only [beq_eq_false_iff_ne, ne_eq]; exact hn.2
        simp [h1, h2, decide_eq_false hn.1, decide_eq_false hn.2]

/-- C3: `is_positional` is true at construction, and the finished item after
directive processing has `is_positional = false` exactly when the directive
sequence contains a `short` or `long` directive. -/
theorem pushAttrs_is_positional (env : EnvCtx) (name : Name) (ty : Option RustTy)
    (c ec : CasingStyle) (k : Kind) (attrs : List Attr) (j : Item)
    (h : (Item.new name ty c ec k).pushAttrs env attrs = .ok j) :
    (Item.new name ty c ec k).is_positional = true ∧
    (j.is_positional = false ↔
      (attrs.any fun a => a.name == "short" || a.name == "long") = true) := by
  refine ⟨rfl, ?_⟩
  unfold Item.pushAttrs at h
  cases hp : passOne (Item.new name ty c ec k) attrs with
  | error e => rw [hp] at h; simp at h
  | ok i1 =>
    rw [hp] at h
    have e1 := passOne_is_positional attrs _ _ hp
    have e2 := passTwo_is_positional env attrs attrs i1 j h
    rw [e2, e1]
    show ((Item.new name ty c ec k).is_positional && _) = false ↔ _
    simp [Item.new]

def envNone : EnvCtx := fun _ => none

def attrLong : Attr := ⟨"long", .Arg, none⟩

def itemVerbose : Item := Item.new (.derived "verbose") none .Kebab .ScreamingSnake (.arg .Other)

def itemVerboseLong : Item :=
  { itemVerbose with is_positional := false, methods := [⟨"long", .lit "verbose"⟩] }

theorem pushAttrs_is_positional_witness :
    itemVerbose.is_positional = true ∧
    (itemVerboseLong.is_positional = false ↔
      ([attrLong].any fun a => a.name == "short" || a.name == "long") = true) :=
  pushAttrs_is_positional envNone (.derived "verbose") none .Kebab .ScreamingSnake
    (.arg .Other) [attrLong] itemVerboseLong (by decide)

/- ---------------------------------------------------------------- -/
/- C4: Flatten restrictions and doc-comment clearing.                -/
/- ---------------------------------------------------------------- -/

theorem finalize_flatten_doc (field : FieldInput) (i j : Item)
    (h : finalizeArgsField field i = .ok j) (hk : j.kind = .flatten) :
    j.docComment = [] := by
  unfold finalizeArgsField at h
  repeat' split at h
  all_goals first
    | contradiction
    | (simp only [Except.ok.injEq] at h; subst h; first | rfl | simp_all)

/-- C4: when the final role is Flatten, any registered configuration method
other than help/long_help aborts the analysis with a conflict error; a
finished field item whose role is Flatten has an empty doc-comment list,
however many doc-comment lines the declaration site carried. -/
theorem flatten_conflict_and_doc_cleared :
    (∀ (field : FieldInput) (i : Item), i.kind = .flatten →
      i.hasExplicitMethods = true →
      ∃ e, finalizeArgsField field i = .error e ∧ e.isConflict = true) ∧
    (∀ (env : EnvCtx) (field : FieldInput) (c ec : CasingStyle) (j : Item),
      Item.fromArgsField env field c ec = .ok j → j.kind = .flatten →
      j.docComment = []) := by
  constructor
  · intro field i hk hm
    by_cases hvp : i.valueParser.isSome = true
    · exact ⟨.flattenValueParser, by simp [finalizeArgsField, hk, hvp], rfl⟩
    · by_cases hac : i.action.isSome = true
      · exact ⟨.flattenAction, by simp [finalizeArgsField, hk, hvp, hac], rfl⟩
      · exact ⟨.flattenMethods, by simp [finalizeArgsField, hk, hvp, hac, hm], rfl⟩
  · intro env field c ec j h hk
    unfold Item.fromArgsField at h
    rcases hp : (Item.new (.derived field.ident) (some field.fieldTy) c ec
        (.arg Ty.Other)).pushAttrs env field.attrs with e | i'
    · rw [hp] at h; simp at h
    · rw [hp] at h
      exact finalize_flatten_doc field _ j h hk

def fieldX : FieldInput := ⟨"x", .simple "u8", [], []⟩

def flatItemWithMethod : Item :=
  { cexItem with kind := .flatten, methods := [⟨"alias", .value (.lit "a")⟩] }

theorem flatten_conflict_and_doc_cleared_witness :
    ∃ e, finalizeArgsField fieldX flatItemWithMethod = .error e ∧
      e.isConflict = true :=
  flatten_conflict_and_doc_cleared.1 fieldX flatItemWithMethod rfl (by decide)

end Clap
